import Mathlib

/-
Verification of the TaskKit coroutine runtime (C++ sources under
src/include/details/) against its natural-language specification.

The C++ code is shallowly embedded: each data structure that a claim
depends on is translated into a Lean structure, and each member function
into a pure Lean function on that structure.  Machine addresses and
coroutine handles are modelled as natural numbers; cross-thread effects
are modelled by passing the calling thread id explicitly, exactly where
the C++ code consults std::this_thread::get_id().
-/

namespace TKit

/-! ## TaskScheduler (src/include/details/TaskScheduler.h)

A scheduler owns
  handles_       : the owner-thread local queue (std::vector, append at back),
  updateHandles_ : the drain buffer swapped in during Update(),
  remoteHead_    : the lock-free stack of cross-thread enqueues
                   (modelled as a list whose head is the most recent push).
Coroutine handles are an abstract type H. -/

structure TaskScheduler (H : Type) where
  ownerId_ : Nat
  handles_ : List H
  updateHandles_ : List H
  remoteHead_ : List H

/-- TaskScheduler::PushRemote: CAS-push onto the head of the remote stack. -/
def TaskScheduler.PushRemote {H : Type} (s : TaskScheduler H) (h : H) : TaskScheduler H :=
  { s with remoteHead_ := h :: s.remoteHead_ }

/-- TaskScheduler::Schedule: the owner thread appends to the local vector,
any other thread pushes onto the remote stack. -/
def TaskScheduler.Schedule {H : Type} (s : TaskScheduler H) (callerTid : Nat) (h : H) :
    TaskScheduler H :=
  if callerTid = s.ownerId_ then
    { s with handles_ := s.handles_ ++ [h] }
  else
    s.PushRemote h

/-- TaskScheduler::CollectRemote: exchange the remote head with null and walk
the stack from its head, appending each handle to the back of handles_. -/
def TaskScheduler.CollectRemote {H : Type} (s : TaskScheduler H) : TaskScheduler H :=
  { s with handles_ := s.handles_ ++ s.remoteHead_, remoteHead_ := [] }

/-- The schedule calls a single resumed coroutine performs, in order: each
entry is the calling thread id (resumption can hand work to other threads,
which then push remotely) together with the handle being enqueued. -/
def TaskScheduler.scheduleCalls {H : Type} (s : TaskScheduler H) :
    List (Nat × H) → TaskScheduler H
  | [] => s
  | (tid, h) :: rest => (s.Schedule tid h).scheduleCalls rest

/-- Resume each handle of the drain buffer in order; resuming a handle x
performs the schedule calls eff x against the evolving scheduler state. -/
def TaskScheduler.resumeList {H : Type} (eff : H → List (Nat × H)) (s : TaskScheduler H) :
    List H → TaskScheduler H
  | [] => s
  | h :: rest => (s.scheduleCalls (eff h)).resumeList eff rest

structure UpdateResult (H : Type) where
  state : TaskScheduler H
  resumed : List H

/-- TaskScheduler::Update: CollectRemote, swap handles_ with the (empty)
updateHandles_ buffer, resume every handle of the swapped-out buffer in
order, then clear the buffer.  eff gives the schedule calls performed by
each resumed handle; resumed records the handles resumed by this call in
order. -/
def TaskScheduler.Update {H : Type} (eff : H → List (Nat × H)) (s : TaskScheduler H) :
    UpdateResult H :=
  let s1 := s.CollectRemote
  let drain := s1.handles_
  let s2 : TaskScheduler H :=
    { s1 with handles_ := s1.updateHandles_, updateHandles_ := drain }
  let s3 := s2.resumeList eff drain
  ⟨{ s3 with updateHandles_ := [] }, drain⟩

/-- The handles pending on a scheduler: the local queue plus the remote stack. -/
def TaskScheduler.pendingList {H : Type} (s : TaskScheduler H) : List H :=
  s.handles_ ++ s.remoteHead_

/-- A chronological sequence of remote pushes (earliest first). -/
def TaskScheduler.pushAllRemote {H : Type} (s : TaskScheduler H) : List H → TaskScheduler H
  | [] => s
  | h :: rest => (s.PushRemote h).pushAllRemote rest

/-- Concrete scheduler used to witness the Update theorems: owner thread 0,
handle 1 enqueued locally since the previous Update, handle 2 pushed
remotely since the previous Update. -/
def schedW : TaskScheduler Nat :=
  ⟨0, [1], [], [2]⟩

/-- Concrete resume effect used to witness the Update theorems: resuming
handle 1 schedules handle 9 from the owner thread. -/
def effW : Nat → List (Nat × Nat) :=
  fun x => if x = 1 then [(0, 9)] else []

/-- Concrete scheduler with an empty remote stack, used to witness the
resume-order theorem. -/
def schedW2 : TaskScheduler Nat :=
  ⟨0, [1, 2], [], []⟩

/-- Resume effect that performs no schedule calls. -/
def effNone : Nat → List (Nat × Nat) :=
  fun _ => []

/-! ## PromiseBase (src/include/details/PromiseBase.h)

The promise result slot std::optional of std::variant of T and
std::exception_ptr: empty, a stored value, or a captured failure.
T is the task result type, E the (opaque) type of a captured exception. -/

inductive ResultSlot (T E : Type) where
  | value : T → ResultSlot T E
  | failure : E → ResultSlot T E
deriving DecidableEq

structure PromiseBase (T E : Type) where
  result_ : Option (ResultSlot T E) := none
deriving DecidableEq

/-- PromiseBase::IsReady: result_.has_value(). -/
def PromiseBase.IsReady {T E : Type} (p : PromiseBase T E) : Bool :=
  p.result_.isSome

/-- PromiseBase::Get: the source busy-waits (while (!IsReady()) {}), then
rethrows a held exception_ptr or returns the moved-out value.  The wait
that never terminates is modelled as none; a normal return as some (ok v);
a rethrow as some (error e). -/
def PromiseBase.Get {T E : Type} (p : PromiseBase T E) : Option (Except E T) :=
  match p.result_ with
  | none => none
  | some (.failure e) => some (Except.error e)
  | some (.value v) => some (Except.ok v)

/-! ## Task and Promise (src/include/details/Task.h)

Coroutine handles held as continuations are an abstract type H; the
no-op sentinel std::noop_coroutine() is a distinguished transfer target. -/

structure Promise (T E H : Type) extends PromiseBase T E where
  continuation_ : Option H := none
  isForgotten_ : Bool := false
deriving DecidableEq

def Promise.IsReady {T E H : Type} (p : Promise T E H) : Bool :=
  p.toPromiseBase.IsReady

def Promise.Get {T E H : Type} (p : Promise T E H) : Option (Except E T) :=
  p.toPromiseBase.Get

/-- A coroutine handle a completed coroutine can transfer control to:
either the no-op sentinel or a real handle. -/
inductive ResumeTarget (H : Type) where
  | noopSentinel : ResumeTarget H
  | resume : H → ResumeTarget H
deriving DecidableEq

/-- Task::Promise::GetContinuation: the stored continuation if set, the
no-op sentinel otherwise. -/
def Promise.GetContinuation {T E H : Type} (p : Promise T E H) : ResumeTarget H :=
  match p.continuation_ with
  | some c => .resume c
  | none => .noopSentinel

/-- Task::Promise::SetContinuation. -/
def Promise.SetContinuation {T E H : Type} (p : Promise T E H) (c : H) : Promise T E H :=
  { p with continuation_ := some c }

/-- Task::Promise::MarkAsForgotten. -/
def Promise.MarkAsForgotten {T E H : Type} (p : Promise T E H) : Promise T E H :=
  { p with isForgotten_ := true }

/-- Outcome of FinalAwaiter::await_suspend at final suspension: whether the
frame destroyed itself, and the handle control is transferred to. -/
structure FinalOutcome (H : Type) where
  frameDestroyed : Bool
  target : ResumeTarget H
deriving DecidableEq

/-- FinalAwaiter::await_suspend (inside Task::Promise::final_suspend): a
forgotten promise destroys its own frame and returns the no-op sentinel,
otherwise control transfers to the stored continuation (no-op if none). -/
def finalAwaiterSuspend {T E H : Type} (p : Promise T E H) : FinalOutcome H :=
  if p.isForgotten_ then
    ⟨true, .noopSentinel⟩
  else
    ⟨false, p.GetContinuation⟩

/-- Task: a move-only owning handle; handle_ = none models a null
std::coroutine_handle (for instance after a move). -/
structure Task (T E H : Type) where
  handle_ : Option (Promise T E H)

/-- Task::IsReady: !handle_ short-circuits to true, otherwise the promise
is consulted. -/
def Task.IsReady {T E H : Type} (t : Task T E H) : Bool :=
  match t.handle_ with
  | none => true
  | some p => p.IsReady

/-- What Task::Forget did: nothing (null handle), destroyed the frame
immediately, or detached the handle leaving a forgotten frame alive. -/
inductive ForgetOutcome where
  | noHandle
  | destroyedNow
  | detachedForgotten
deriving DecidableEq

/-- Task::Forget: result is (the task afterwards, what happened, the
promise of the frame that remains alive, if any). -/
def Task.Forget {T E H : Type} (t : Task T E H) :
    Task T E H × ForgetOutcome × Option (Promise T E H) :=
  match t.handle_ with
  | none => (t, .noHandle, none)
  | some p =>
    if p.IsReady then
      (⟨none⟩, .destroyedNow, none)
    else
      (⟨none⟩, .detachedForgotten, some p.MarkAsForgotten)

/-- Task move constructor: returns (the new task, the moved-from source);
the source handle is set to null. -/
def Task.moveConstruct {T E H : Type} (t : Task T E H) : Task T E H × Task T E H :=
  (⟨t.handle_⟩, ⟨none⟩)

/-- Task::Awaiter.  GetPromise() dereferences task_.handle_, so the awaiter
is modelled as holding the promise of the (live) sub-task it was
constructed from. -/
structure Awaiter (T E H : Type) where
  taskPromise : Promise T E H

/-- Task::Awaiter::await_ready: the sub-task promise is already ready. -/
def Awaiter.await_ready {T E H : Type} (a : Awaiter T E H) : Bool :=
  a.taskPromise.IsReady

/-- Task::Awaiter::await_suspend: store the awaiting handle as the
sub-task's continuation. -/
def Awaiter.await_suspend {T E H : Type} (a : Awaiter T E H) (h : H) : Promise T E H :=
  a.taskPromise.SetContinuation h

/-- Task::Awaiter::await_resume: delegates to PromiseBase::Get. -/
def Awaiter.await_resume {T E H : Type} (a : Awaiter T E H) : Option (Except E T) :=
  a.taskPromise.Get

/-! ## Eager start (Task::Promise::initial_suspend)

initial_suspend() returns std::suspend_never, so a task coroutine never
suspends at its initial suspend point: the body runs on creation until its
first real suspension.  A body is modelled as a list of statements over an
environment; yield_value schedules the handle (counted) and suspends. -/

/-- Whether Task::Promise::initial_suspend suspends the new coroutine.
The source returns std::suspend_never: it does not. -/
def initialSuspendSuspends : Bool := false

inductive Stmt (σ : Type) where
  | assign : (σ → σ) → Stmt σ
  | yieldFrame : Stmt σ
  | coReturn : Stmt σ

/-- State of a coroutine after its constructor returned: the environment,
whether the promise is ready (ran to completion), and how many schedule
calls (one per executed co_yield) were made. -/
structure CreationOutcome (σ : Type) where
  env : σ
  ready : Bool
  scheduleCallCount : Nat
deriving DecidableEq

/-- Run a coroutine body until its first suspension or completion. -/
def runBody {σ : Type} : List (Stmt σ) → σ → Nat → CreationOutcome σ
  | [], env, n => ⟨env, true, n⟩
  | .assign f :: rest, env, n => runBody rest (f env) n
  | .yieldFrame :: _, env, n => ⟨env, false, n + 1⟩
  | .coReturn :: _, env, n => ⟨env, true, n⟩

/-- Constructing a task: because initial_suspend is suspend_never, the body
runs eagerly; otherwise the coroutine would sit unstarted. -/
def createTask {σ : Type} (body : List (Stmt σ)) (env : σ) : CreationOutcome σ :=
  if initialSuspendSuspends then ⟨env, false, 0⟩ else runBody body env 0

/-- The body of spec scenario 1: { executed = true; co_return; }. -/
def eagerBody : List (Stmt Bool) :=
  [.assign (fun _ => true), .coReturn]

/-- Concrete promises used to witness the Forget / final-suspend and
awaiter theorems (T = E = H = Nat). -/
def promiseReadyW : Promise Nat Nat Nat :=
  { result_ := some (.value 42) }

def promiseNotReadyW : Promise Nat Nat Nat :=
  { result_ := none }

def promiseForgottenW : Promise Nat Nat Nat :=
  { result_ := none, isForgotten_ := true }

def promiseContW : Promise Nat Nat Nat :=
  { result_ := none, continuation_ := some 5 }

def promiseFailedW : Promise Nat Nat Nat :=
  { result_ := some (.failure 7) }

/-! ## DelayFrame (src/include/details/Utility.h)

Task<> DelayFrame(int frameCount, std::stop_token):
  if (frameCount > 0) { while (frameCount-- > 0) { throw-if-stopped; co_yield {}; } }
  throw-if-stopped; co_return;
modelled for a token on which stop is never requested, so ThrowIfStopRequested
is a no-op.  co_yield {} goes through Task::Promise::yield_value, which
schedules the coroutine's own handle on the currently activated scheduler
(TaskSystem::GetActivatedSchedulerId()) and suspends; the activated
scheduler id is the parameter act.  Each step returns the next coroutine
state together with the scheduler id the handle was re-enqueued on (none
when the coroutine completed instead of yielding). -/

inductive DelayState where
  | suspended : Int → DelayState
  | done : DelayState
deriving DecidableEq

/-- One execution burst of the DelayFrame loop: evaluate frameCount-- > 0
on the stored counter c; on success decrement and co_yield (re-enqueueing
on the activated scheduler act), otherwise leave the loop and co_return. -/
def DelayFrameStep (act : Nat) (c : Int) : DelayState × Option Nat :=
  if 0 < c then (.suspended (c - 1), some act) else (.done, none)

/-- Eager creation of DelayFrame(n): the outer if (frameCount > 0) guards
the loop; a positive n enters the loop and performs its first burst, a
non-positive n falls through to co_return and the task completes during
construction. -/
def DelayFrameCreate (act : Nat) (n : Int) : DelayState × Option Nat :=
  if 0 < n then DelayFrameStep act n else (.done, none)

/-- Drive k Update() calls on the scheduler holding the suspended DelayFrame
handle: each Update resumes the handle once (it is re-enqueued at each
yield, so it is pending again for the next Update).  Returns the coroutine
state after the k updates and how many of those resumes ended in a yield
re-enqueued on the activated scheduler act. -/
def driveUpdates (act : Nat) : DelayState → Nat → DelayState × Nat
  | s, 0 => (s, 0)
  | .done, _ + 1 => (.done, 0)
  | .suspended r, k + 1 =>
    let step := DelayFrameStep act r
    let rest := driveUpdates act step.1 k
    (rest.1, (if step.2 = some act then 1 else 0) + rest.2)

/-! ## PoolAllocator (src/include/details/PoolAllocator.h)

Blocks are identified by abstract raw addresses (Nat); the byte layout of
slabs does not matter to the claims, so AllocateNewSlab hands out fresh
consecutive ids from nextFresh, standing for the addresses operator new
returns.  The BlockMeta headers living in memory just before each user
pointer are modelled by the map metaMap from raw address to header.  The
single ThreadLocalPool of the owning thread is modelled; its ownerId is
the owning thread's id, and every operation takes the calling thread's id
where the C++ consults std::this_thread::get_id(). -/

namespace PoolAlloc

abbrev Addr := Nat

/-- PoolAllocator::PoolSizes, the fixed size ladder. -/
def PoolSizes : List Nat := [48, 64, 128, 256, 512, 1024, 2048, 4096, 8192]

/-- The loop body of PoolAllocator::FindPoolIndex: scan the ladder from
index i upward for the first entry that size fits into. -/
def findPoolIndexAux (size : Nat) : List Nat → Nat → Int
  | [], _ => -1
  | b :: rest, i => if size ≤ b then (i : Int) else findPoolIndexAux size rest (i + 1)

/-- PoolAllocator::FindPoolIndex: the index of the smallest ladder entry
that is at least size, or -1 when size exceeds the largest entry. -/
def FindPoolIndex (size : Nat) : Int :=
  findPoolIndexAux size PoolSizes 0

/-- sizeof(BlockMeta) rounded up to max alignment; the user pointer is the
raw block address plus this constant.  Its exact value is platform
dependent and irrelevant to the claims. -/
def AlignedMetaSize : Nat := 16

def userPtrOf (raw : Addr) : Addr := raw + AlignedMetaSize

def rawPtrOf (user : Addr) : Addr := user - AlignedMetaSize

/-- The BlockMeta header written in front of every block: whether ownerPool
is a non-null pool pointer (always true for blocks this allocator handed
out; the model keeps only one pool, so a non-null owner is this pool), and
the size-ladder index, PoolSizes.length standing for the oversize
sentinel.  The C++ stores the index as uint8_t; every stored value is at
most PoolSizes.length = 9, so the narrowing is lossless. -/
structure BlockMeta where
  hasOwner : Bool
  poolIndex : Nat
deriving DecidableEq

def SlabBlockCount : Nat := 32

/-- The per-thread pool: one local free list per ladder bucket, the
lock-free remote free stack (head = most recent push, each node carrying
the pool index the remote deallocator wrote into it), a source of fresh
block addresses standing for the system allocator, and the in-memory
BlockMeta headers. -/
structure ThreadLocalPool where
  ownerId : Nat
  freeLists : Nat → List Addr
  remoteFree : List (Addr × Nat)
  nextFresh : Addr
  metaMap : Addr → Option BlockMeta

/-- The walk inside ThreadLocalPool::CollectRemoteFree: re-interpret each
remote node with an in-range pool index as a FreeNode pushed onto that
bucket's local free list; delegate oversize nodes to operator delete (the
second component collects the addresses so deleted). -/
def collectLoop : List (Addr × Nat) → (Nat → List Addr) → List Addr →
    ((Nat → List Addr) × List Addr)
  | [], fls, deleted => (fls, deleted)
  | (a, pi) :: rest, fls, deleted =>
    if pi < PoolSizes.length then
      collectLoop rest (Function.update fls pi (a :: fls pi)) deleted
    else
      collectLoop rest fls (deleted ++ [a])

/-- ThreadLocalPool::CollectRemoteFree: atomically take the whole remote
stack and distribute it; returns the new pool state and the oversize
addresses handed to operator delete. -/
def CollectRemoteFree (st : ThreadLocalPool) : ThreadLocalPool × List Addr :=
  let r := collectLoop st.remoteFree st.freeLists []
  ({ st with freeLists := r.1, remoteFree := [] }, r.2)

/-- ThreadLocalPool::AllocateNewSlab: obtain SlabBlockCount fresh blocks
from the system allocator, return block 0 to the caller and push blocks
1 .. SlabBlockCount - 1 onto the bucket's free list in loop order (so the
last-pushed block, number 31, ends up at the head). -/
def AllocateNewSlab (st : ThreadLocalPool) (poolIndex : Nat) : Addr × ThreadLocalPool :=
  let base := st.nextFresh
  let newFree := (List.range (SlabBlockCount - 1)).foldl
    (fun acc i => (base + i + 1) :: acc) (st.freeLists poolIndex)
  (base,
   { st with
     freeLists := Function.update st.freeLists poolIndex newFree,
     nextFresh := base + SlabBlockCount })

/-- ThreadLocalPool::AllocateFromPool: pop the local free list; if empty,
collect the remote stack and retry; if still empty, allocate a new slab. -/
def AllocateFromPool (st : ThreadLocalPool) (poolIndex : Nat) : Addr × ThreadLocalPool :=
  match st.freeLists poolIndex with
  | n :: rest =>
    (n, { st with freeLists := Function.update st.freeLists poolIndex rest })
  | [] =>
    let st1 := (CollectRemoteFree st).1
    match st1.freeLists poolIndex with
    | n :: rest =>
      (n, { st1 with freeLists := Function.update st1.freeLists poolIndex rest })
    | [] => AllocateNewSlab st1 poolIndex

/-- Where PoolAllocator::Allocate obtained the block. -/
inductive AllocSource where
  | poolBucket : Nat → AllocSource
  | systemNew : AllocSource
deriving DecidableEq

structure AllocResult where
  ptr : Addr
  state : ThreadLocalPool
  source : AllocSource
  metaIndex : Nat

/-- PoolAllocator::Allocate, running on the pool's owner thread: pick the
bucket via FindPoolIndex; a non-negative index allocates from that bucket,
otherwise the block comes straight from the system allocator; either way a
BlockMeta header with this pool as owner and the chosen index (the ladder
length for oversize) is written in front of the block, and the user
pointer one AlignedMetaSize past the raw block is returned. -/
def Allocate (st : ThreadLocalPool) (size : Nat) : AllocResult :=
  let idx := FindPoolIndex size
  if 0 ≤ idx then
    let r := AllocateFromPool st idx.toNat
    { ptr := userPtrOf r.1,
      state := { r.2 with
        metaMap := Function.update r.2.metaMap r.1 (some ⟨true, idx.toNat⟩) },
      source := .poolBucket idx.toNat,
      metaIndex := idx.toNat }
  else
    let raw := st.nextFresh
    { ptr := userPtrOf raw,
      state := { st with
        nextFresh := raw + 1,
        metaMap := Function.update st.metaMap raw (some ⟨true, PoolSizes.length⟩) },
      source := .systemNew,
      metaIndex := PoolSizes.length }

/-- What PoolAllocator::Deallocate did with the pointer. -/
inductive DeallocAction where
  | nullNoop
  | noOwnerNoop
  | systemDelete
  | localPush
  | remotePush
deriving DecidableEq

/-- PoolAllocator::Deallocate, called from thread callerTid with the
advisory size argument (which the source marks maybe_unused and never
reads): a null pointer is a no-op; otherwise the true bucket is read from
the BlockMeta header in front of the block; a null owner is a no-op; an
oversize index goes straight to operator delete; the owner thread pushes a
FreeNode LIFO onto the bucket's local free list; any other thread pushes a
RemoteFreeNode onto the owner's remote stack. -/
def Deallocate (st : ThreadLocalPool) (callerTid : Nat) (ptr : Option Addr)
    (_sizeArg : Nat) : ThreadLocalPool × DeallocAction :=
  match ptr with
  | none => (st, .nullNoop)
  | some p =>
    let raw := rawPtrOf p
    match st.metaMap raw with
    | none => (st, .noOwnerNoop)
    | some m =>
      if m.hasOwner = false then
        (st, .noOwnerNoop)
      else if PoolSizes.length ≤ m.poolIndex then
        (st, .systemDelete)
      else if callerTid = st.ownerId then
        ({ st with freeLists :=
            Function.update st.freeLists m.poolIndex (raw :: st.freeLists m.poolIndex) },
         .localPush)
      else
        ({ st with remoteFree := (raw, m.poolIndex) :: st.remoteFree }, .remotePush)

/-- An empty pool owned by thread 0, used by the witnesses. -/
def emptyPoolW : ThreadLocalPool :=
  { ownerId := 0
    freeLists := fun _ => []
    remoteFree := []
    nextFresh := 0
    metaMap := fun _ => none }

/-- Pool whose remote stack holds one in-range node, and whose metaMap
holds an oversize header for raw address 0; witnesses the oversize
theorem. -/
def oversizePoolW : ThreadLocalPool :=
  { ownerId := 0
    freeLists := fun _ => []
    remoteFree := [(100, 2)]
    nextFresh := 200
    metaMap := fun a => if a = 0 then some ⟨true, PoolSizes.length⟩ else none }

/-- Pool with a block of bucket 2 at raw address 3 owned by thread 0, used
to witness a remote push from thread 1. -/
def remotePoolW : ThreadLocalPool :=
  { ownerId := 0
    freeLists := fun _ => []
    remoteFree := []
    nextFresh := 200
    metaMap := fun a => if a = 3 then some ⟨true, 2⟩ else none }

end PoolAlloc

end TKit

namespace TKit

/-! ### Scheduler lemmas -/

theorem pendingList_Schedule_self {H : Type} (s : TaskScheduler H) (tid : Nat) (h : H) :
    h ∈ (s.Schedule tid h).pendingList := by
  unfold TaskScheduler.Schedule TaskScheduler.PushRemote TaskScheduler.pendingList
  by_cases hc : tid = s.ownerId_ <;> simp [hc]

theorem pendingList_Schedule_mono {H : Type} (s : TaskScheduler H) (tid : Nat) (h x : H)
    (hx : x ∈ s.pendingList) : x ∈ (s.Schedule tid h).pendingList := by
  unfold TaskScheduler.Schedule TaskScheduler.PushRemote TaskScheduler.pendingList at *
  by_cases hc : tid = s.ownerId_ <;> simp [hc] <;> simp at hx <;> tauto

theorem pendingList_scheduleCalls_mono {H : Type} (ops : List (Nat × H))
    (s : TaskScheduler H) (x : H) (hx : x ∈ s.pendingList) :
    x ∈ (s.scheduleCalls ops).pendingList := by
  induction ops generalizing s with
  | nil => exact hx
  | cons op rest ih =>
    exact ih _ (pendingList_Schedule_mono s op.1 op.2 x hx)

theorem pendingList_scheduleCalls_self {H : Type} (ops : List (Nat × H))
    (s : TaskScheduler H) (tid : Nat) (h : H) (hmem : (tid, h) ∈ ops) :
    h ∈ (s.scheduleCalls ops).pendingList := by
  induction ops generalizing s with
  | nil => cases hmem
  | cons op rest ih =>
    rcases List.mem_cons.mp hmem with heq | htail
    · cases heq
      exact pendingList_scheduleCalls_mono rest _ h (pendingList_Schedule_self s tid h)
    · exact ih _ htail

theorem pendingList_resumeList_mono {H : Type} (eff : H → List (Nat × H)) (l : List H)
    (s : TaskScheduler H) (x : H) (hx : x ∈ s.pendingList) :
    x ∈ (s.resumeList eff l).pendingList := by
  induction l generalizing s with
  | nil => exact hx
  | cons hd rest ih =>
    exact ih _ (pendingList_scheduleCalls_mono (eff hd) s x hx)

theorem pendingList_resumeList_self {H : Type} (eff : H → List (Nat × H)) (l : List H)
    (s : TaskScheduler H) (x : H) (tid : Nat) (h : H)
    (hx : x ∈ l) (hop : (tid, h) ∈ eff x) :
    h ∈ (s.resumeList eff l).pendingList := by
  induction l generalizing s with
  | nil => cases hx
  | cons hd rest ih =>
    rcases List.mem_cons.mp hx with heq | htail
    · subst heq
      exact pendingList_resumeList_mono eff rest _ h
        (pendingList_scheduleCalls_self (eff x) s tid h hop)
    · exact ih _ htail

/-- One Update resumes exactly the drain-start pending handles, in the order
local queue then collected remote stack. -/
theorem Update_resumed_eq {H : Type} (eff : H → List (Nat × H)) (s : TaskScheduler H) :
    (TaskScheduler.Update eff s).resumed = s.handles_ ++ s.remoteHead_ := rfl

theorem pushAllRemote_state {H : Type} (ps : List H) (s : TaskScheduler H) :
    (s.pushAllRemote ps).handles_ = s.handles_ ∧
    (s.pushAllRemote ps).remoteHead_ = ps.reverse ++ s.remoteHead_ := by
  induction ps generalizing s with
  | nil => simp [TaskScheduler.pushAllRemote]
  | cons p rest ih =>
    have hih := ih (s.PushRemote p)
    simp only [TaskScheduler.pushAllRemote, TaskScheduler.PushRemote] at hih ⊢
    refine ⟨hih.1, ?_⟩
    rw [hih.2]
    simp

/-- Claim C1: one call to Update() resumes exactly the handles pending at
drain-start (the local queue followed by the remote handles collected at
the start of the call); any handle h enqueued via Schedule() while Update()
is running (here: during the resumption of some drained handle x) is not
resumed by that call, is pending on the scheduler afterwards, and is
resumed by the next Update(). -/
theorem Update_resumes_exactly_drain_start {H : Type} (eff : H → List (Nat × H))
    (s : TaskScheduler H) (x h : H) (tid : Nat)
    (hinv : s.updateHandles_ = [])
    (hx : x ∈ (TaskScheduler.Update eff s).resumed)
    (hop : (tid, h) ∈ eff x)
    (hnew : h ∉ s.handles_ ++ s.remoteHead_) :
    (TaskScheduler.Update eff s).resumed = s.handles_ ++ s.remoteHead_ ∧
    h ∉ (TaskScheduler.Update eff s).resumed ∧
    h ∈ (TaskScheduler.Update eff s).state.pendingList ∧
    h ∈ (TaskScheduler.Update eff (TaskScheduler.Update eff s).state).resumed := by
  have hpend : h ∈ (TaskScheduler.Update eff s).state.pendingList := by
    have hx' : x ∈ s.handles_ ++ s.remoteHead_ := by
      rwa [Update_resumed_eq] at hx
    exact pendingList_resumeList_self eff (s.handles_ ++ s.remoteHead_) _ x tid h hx' hop
  refine ⟨rfl, ?_, hpend, ?_⟩
  · rw [Update_resumed_eq]
    exact hnew
  · rw [Update_resumed_eq]
    exact hpend

/-- Witness for the Update drain theorem at a concrete scheduler: owner 0,
local handle 1, remote handle 2; resuming 1 schedules the fresh handle 9. -/
theorem Update_resumes_exactly_drain_start_witness :
    (TaskScheduler.Update effW schedW).resumed = schedW.handles_ ++ schedW.remoteHead_ ∧
    9 ∉ (TaskScheduler.Update effW schedW).resumed ∧
    9 ∈ (TaskScheduler.Update effW schedW).state.pendingList ∧
    9 ∈ (TaskScheduler.Update effW (TaskScheduler.Update effW schedW).state).resumed :=
  Update_resumes_exactly_drain_start effW schedW 1 9 0 rfl (by decide) (by decide)
    (by decide)

/-- Claim C2, counterexample: with local queue [1] and remote stack [2] the
code resumes the local handle 1 first and the remote arrival 2 after it, so
a remote arrival collected at the start of Update() is NOT resumed before
the handles locally enqueued since the previous Update(). -/
theorem Update_remote_after_local_cex :
    (TaskScheduler.Update effNone schedW).resumed = [1, 2] ∧
    ¬ List.indexOf 2 (TaskScheduler.Update effNone schedW).resumed
        < List.indexOf 1 (TaskScheduler.Update effNone schedW).resumed := by
  decide

/-- Claim C2 (amended): within a single Update(), handles are resumed in the
order they were added to the local queue, and the remote arrivals collected
at the start of that Update() are resumed after every handle locally
enqueued since the previous Update(), in reverse order of their pushes. -/
theorem Update_order_local_then_remote_reversed {H : Type} (eff : H → List (Nat × H))
    (s : TaskScheduler H) (ps : List H) (hrem : s.remoteHead_ = []) :
    (TaskScheduler.Update eff (s.pushAllRemote ps)).resumed = s.handles_ ++ ps.reverse := by
  rw [Update_resumed_eq, (pushAllRemote_state ps s).1, (pushAllRemote_state ps s).2, hrem]
  simp

/-- Witness for the resume-order theorem: local handles [1, 2], remote pushes
3 then 4; the Update resumes [1, 2, 4, 3]. -/
theorem Update_order_local_then_remote_reversed_witness :
    (TaskScheduler.Update effNone (schedW2.pushAllRemote [3, 4])).resumed
      = schedW2.handles_ ++ [3, 4].reverse :=
  Update_order_local_then_remote_reversed effNone schedW2 [3, 4] rfl

/-- Claim C3: Forget() on a task whose promise is ready destroys the frame
immediately; on a not-yet-ready task it marks the promise forgotten and
detaches the handle; at final suspension a forgotten coroutine destroys its
own frame and transfers to the no-op sentinel, while a non-forgotten one
transfers to its stored continuation, the no-op sentinel if none was set. -/
theorem Forget_and_final_suspend_spec {T E H : Type} (p : Promise T E H) :
    (p.IsReady = true →
      Task.Forget (⟨some p⟩ : Task T E H) = (⟨none⟩, .destroyedNow, none)) ∧
    (p.IsReady = false →
      Task.Forget (⟨some p⟩ : Task T E H)
        = (⟨none⟩, .detachedForgotten, some p.MarkAsForgotten)) ∧
    (p.isForgotten_ = true → finalAwaiterSuspend p = ⟨true, .noopSentinel⟩) ∧
    (p.isForgotten_ = false → finalAwaiterSuspend p = ⟨false, p.GetContinuation⟩) ∧
    (p.continuation_ = none → p.GetContinuation = .noopSentinel) ∧
    (∀ c, p.continuation_ = some c → p.GetContinuation = .resume c) := by
  refine ⟨?_, ?_, ?_, ?_, ?_, ?_⟩
  · intro hready
    simp [Task.Forget, hready]
  · intro hnot
    simp [Task.Forget, hnot]
  · intro hf
    simp [finalAwaiterSuspend, hf]
  · intro hf
    simp [finalAwaiterSuspend, hf]
  · intro hc
    simp [Promise.GetContinuation, hc]
  · intro c hc
    simp [Promise.GetContinuation, hc]

/-- Witness for the Forget / final-suspend theorem at concrete promises. -/
theorem Forget_and_final_suspend_spec_witness :
    Task.Forget (⟨some promiseReadyW⟩ : Task Nat Nat Nat)
      = (⟨none⟩, .destroyedNow, none) ∧
    Task.Forget (⟨some promiseNotReadyW⟩ : Task Nat Nat Nat)
      = (⟨none⟩, .detachedForgotten, some promiseNotReadyW.MarkAsForgotten) ∧
    finalAwaiterSuspend promiseForgottenW = ⟨true, .noopSentinel⟩ ∧
    finalAwaiterSuspend promiseContW = ⟨false, promiseContW.GetContinuation⟩ ∧
    promiseNotReadyW.GetContinuation = .noopSentinel ∧
    promiseContW.GetContinuation = .resume 5 :=
  ⟨(Forget_and_final_suspend_spec promiseReadyW).1 rfl,
   (Forget_and_final_suspend_spec promiseNotReadyW).2.1 rfl,
   (Forget_and_final_suspend_spec promiseForgottenW).2.2.1 rfl,
   (Forget_and_final_suspend_spec promiseContW).2.2.2.1 rfl,
   (Forget_and_final_suspend_spec promiseNotReadyW).2.2.2.2.1 rfl,
   (Forget_and_final_suspend_spec promiseContW).2.2.2.2.2 5 rfl⟩

/-- Claim C4: the Task awaiter is ready exactly when the sub-task's promise
is ready, and await_resume returns the stored value of a value-completed
sub-task and rethrows the captured failure of a failed sub-task. -/
theorem Awaiter_ready_and_resume_spec {T E H : Type} (p : Promise T E H) :
    ((Awaiter.mk p : Awaiter T E H).await_ready = true ↔ p.IsReady = true) ∧
    (∀ v, p.result_ = some (.value v) →
      (Awaiter.mk p : Awaiter T E H).await_resume = some (Except.ok v)) ∧
    (∀ e, p.result_ = some (.failure e) →
      (Awaiter.mk p : Awaiter T E H).await_resume = some (Except.error e)) := by
  refine ⟨Iff.rfl, ?_, ?_⟩
  · intro v hv
    simp [Awaiter.await_resume, Promise.Get, PromiseBase.Get, hv]
  · intro e he
    simp [Awaiter.await_resume, Promise.Get, PromiseBase.Get, he]

/-- Witness for the awaiter theorem: a value-completed sub-task delivers the
value 42, a failed sub-task rethrows the captured failure 7. -/
theorem Awaiter_ready_and_resume_spec_witness :
    (Awaiter.mk promiseReadyW).await_resume = some (Except.ok 42) ∧
    (Awaiter.mk promiseFailedW).await_resume = some (Except.error 7) :=
  ⟨(Awaiter_ready_and_resume_spec promiseReadyW).2.1 42 rfl,
   (Awaiter_ready_and_resume_spec promiseFailedW).2.2 7 rfl⟩

/-- Claim C5: initial_suspend never suspends, so the coroutine body runs
eagerly on creation: for the body { executed = true; co_return; } the
variable is already true and the promise ready when the task constructor
returns, with zero schedule calls. -/
theorem eager_execution_spec :
    initialSuspendSuspends = false ∧
    createTask eagerBody false = ⟨true, true, 0⟩ :=
  ⟨rfl, rfl⟩

/-- Claim C10: Task::IsReady() reports true for a task holding no coroutine
handle, in particular for the source of a move construction. -/
theorem IsReady_null_handle_spec {T E H : Type} (t : Task T E H) :
    (Task.mk (none : Option (Promise T E H))).IsReady = true ∧
    (t.moveConstruct.2).IsReady = true :=
  ⟨rfl, rfl⟩

theorem driveUpdates_succ_eq (act : Nat) (r : Int) (k : Nat) :
    driveUpdates act (.suspended r) (k + 1)
      = ((driveUpdates act (DelayFrameStep act r).1 k).1,
         (if (DelayFrameStep act r).2 = some act then 1 else 0)
           + (driveUpdates act (DelayFrameStep act r).1 k).2) := rfl

theorem driveUpdates_suspended (act : Nat) (k : Nat) :
    driveUpdates act (.suspended (k : Int)) k = (.suspended 0, k) ∧
    driveUpdates act (.suspended (k : Int)) (k + 1) = (.done, k) := by
  induction k with
  | zero =>
    refine ⟨rfl, ?_⟩
    simp [driveUpdates, DelayFrameStep]
  | succ k ih =>
    have hc : (0 : Int) < ((k + 1 : Nat) : Int) := by exact_mod_cast Nat.succ_pos k
    have hsub : ((k + 1 : Nat) : Int) - 1 = (k : Int) := by push_cast; ring
    have hstep : DelayFrameStep act ((k + 1 : Nat) : Int)
        = (.suspended (k : Int), some act) := by
      simp only [DelayFrameStep]
      rw [if_pos hc, hsub]
    refine ⟨?_, ?_⟩
    · rw [driveUpdates_succ_eq, hstep]
      simp [ih.1] <;> omega
    · rw [driveUpdates_succ_eq, hstep]
      simp [ih.2] <;> omega

/-- Claim C6: for n not positive, DelayFrame(n) with a never-cancelled token
completes during construction without yielding; for positive n the creation
performs the first yield (re-enqueueing the handle on the activated
scheduler act), the next n - 1 Update() calls each resume the handle and
end in a further yield on act (so n yields in total), and the n-th Update()
completes the coroutine, which is therefore done after exactly n (and not
after n - 1) Update() calls. -/
theorem DelayFrame_spec (act : Nat) (n : Int) :
    (n ≤ 0 → DelayFrameCreate act n = (.done, none)) ∧
    (0 < n →
      DelayFrameCreate act n = (.suspended (n - 1), some act) ∧
      driveUpdates act (.suspended (n - 1)) (n.toNat - 1)
        = (.suspended 0, n.toNat - 1) ∧
      driveUpdates act (.suspended (n - 1)) n.toNat = (.done, n.toNat - 1)) := by
  refine ⟨?_, ?_⟩
  · intro hn
    have : ¬ (0 : Int) < n := by omega
    simp [DelayFrameCreate, this]
  · intro hn
    have h1 : DelayFrameCreate act n = (.suspended (n - 1), some act) := by
      simp only [DelayFrameCreate, DelayFrameStep]
      rw [if_pos hn, if_pos hn]
    have hk : n - 1 = ((n.toNat - 1 : Nat) : Int) := by omega
    have hd := driveUpdates_suspended act (n.toNat - 1)
    have hnt : n.toNat - 1 + 1 = n.toNat := by omega
    refine ⟨h1, ?_, ?_⟩
    · rw [hk]
      exact hd.1
    · rw [hk, ← hnt]
      exact hd.2

/-- Witness for the DelayFrame theorem at n = 3, activated scheduler 7:
creation yields once, two further updates yield twice more, the third
update completes. -/
theorem DelayFrame_spec_witness :
    DelayFrameCreate 7 3 = (.suspended 2, some 7) ∧
    driveUpdates 7 (.suspended 2) 2 = (.suspended 0, 2) ∧
    driveUpdates 7 (.suspended 2) 3 = (.done, 2) :=
  (DelayFrame_spec 7 3).2 (by decide)

namespace PoolAlloc

theorem findPoolIndex_spec (size : Nat) (hs : size ≤ 8192) :
    0 ≤ FindPoolIndex size ∧
    (FindPoolIndex size).toNat < PoolSizes.length ∧
    size ≤ PoolSizes.getD (FindPoolIndex size).toNat 0 ∧
    ∀ b2 ∈ PoolSizes, size ≤ b2 → PoolSizes.getD (FindPoolIndex size).toNat 0 ≤ b2 := by
  by_cases h1 : size ≤ 48
  · have hf : FindPoolIndex size = 0 := by
      simp [FindPoolIndex, PoolSizes, findPoolIndexAux, h1]
    rw [hf]
    refine ⟨by decide, by decide, by simpa [PoolSizes] using h1, ?_⟩
    intro b2 hb2 hsb
    simp [PoolSizes] at hb2 ⊢
    omega
  by_cases h2 : size ≤ 64
  · have hf : FindPoolIndex size = 1 := by
      simp [FindPoolIndex, PoolSizes, findPoolIndexAux, h1, h2]
    rw [hf]
    refine ⟨by decide, by decide, by simpa [PoolSizes] using h2, ?_⟩
    intro b2 hb2 hsb
    simp [PoolSizes] at hb2 ⊢
    omega
  by_cases h3 : size ≤ 128
  · have hf : FindPoolIndex size = 2 := by
      simp [FindPoolIndex, PoolSizes, findPoolIndexAux, h1, h2, h3]
    rw [hf]
    refine ⟨by decide, by decide, by simpa [PoolSizes] using h3, ?_⟩
    intro b2 hb2 hsb
    simp [PoolSizes] at hb2 ⊢
    omega
  by_cases h4 : size ≤ 256
  · have hf : FindPoolIndex size = 3 := by
      simp [FindPoolIndex, PoolSizes, findPoolIndexAux, h1, h2, h3, h4]
    rw [hf]
    refine ⟨by decide, by decide, by simpa [PoolSizes] using h4, ?_⟩
    intro b2 hb2 hsb
    simp [PoolSizes] at hb2 ⊢
    omega
  by_cases h5 : size ≤ 512
  · have hf : FindPoolIndex size = 4 := by
      simp [FindPoolIndex, PoolSizes, findPoolIndexAux, h1, h2, h3, h4, h5]
    rw [hf]
    refine ⟨by decide, by decide, by simpa [PoolSizes] using h5, ?_⟩
    intro b2 hb2 hsb
    simp [PoolSizes] at hb2 ⊢
    omega
  by_cases h6 : size ≤ 1024
  · have hf : FindPoolIndex size = 5 := by
      simp [FindPoolIndex, PoolSizes, findPoolIndexAux, h1, h2, h3, h4, h5, h6]
    rw [hf]
    refine ⟨by decide, by decide, by simpa [PoolSizes] using h6, ?_⟩
    intro b2 hb2 hsb
    simp [PoolSizes] at hb2 ⊢
    omega
  by_cases h7 : size ≤ 2048
  · have hf : FindPoolIndex size = 6 := by
      simp [FindPoolIndex, PoolSizes, findPoolIndexAux, h1, h2, h3, h4, h5, h6, h7]
    rw [hf]
    refine ⟨by decide, by decide, by simpa [PoolSizes] using h7, ?_⟩
    intro b2 hb2 hsb
    simp [PoolSizes] at hb2 ⊢
    omega
  by_cases h8 : size ≤ 4096
  · have hf : FindPoolIndex size = 7 := by
      simp [FindPoolIndex, PoolSizes, findPoolIndexAux, h1, h2, h3, h4, h5, h6, h7, h8]
    rw [hf]
    refine ⟨by decide, by decide, by simpa [PoolSizes] using h8, ?_⟩
    intro b2 hb2 hsb
    simp [PoolSizes] at hb2 ⊢
    omega
  · have hf : FindPoolIndex size = 8 := by
      simp [FindPoolIndex, PoolSizes, findPoolIndexAux, h1, h2, h3, h4, h5, h6, h7, h8, hs]
    rw [hf]
    refine ⟨by decide, by decide, by simpa [PoolSizes] using hs, ?_⟩
    intro b2 hb2 hsb
    simp [PoolSizes] at hb2 ⊢
    omega

theorem findPoolIndex_oversize (size : Nat) (hs : 8192 < size) :
    FindPoolIndex size = -1 := by
  have h1 : ¬ size ≤ 48 := by omega
  have h2 : ¬ size ≤ 64 := by omega
  have h3 : ¬ size ≤ 128 := by omega
  have h4 : ¬ size ≤ 256 := by omega
  have h5 : ¬ size ≤ 512 := by omega
  have h6 : ¬ size ≤ 1024 := by omega
  have h7 : ¬ size ≤ 2048 := by omega
  have h8 : ¬ size ≤ 4096 := by omega
  have h9 : ¬ size ≤ 8192 := by omega
  simp [FindPoolIndex, PoolSizes, findPoolIndexAux, h1, h2, h3, h4, h5, h6, h7, h8, h9]

/-- Claim C7: Allocate(size) places the block in the bucket of the smallest
ladder entry that is at least size; a size above the largest entry is
served by the system allocator, with the same BlockMeta header written in
front of the block and pool index equal to the oversize sentinel
PoolSizes.length. -/
theorem Allocate_size_class_spec (st : ThreadLocalPool) (size : Nat) :
    (size ≤ 8192 →
      (Allocate st size).source = .poolBucket (Allocate st size).metaIndex ∧
      (Allocate st size).metaIndex < PoolSizes.length ∧
      size ≤ PoolSizes.getD (Allocate st size).metaIndex 0 ∧
      ∀ b2 ∈ PoolSizes, size ≤ b2 →
        PoolSizes.getD (Allocate st size).metaIndex 0 ≤ b2) ∧
    (8192 < size →
      (Allocate st size).source = .systemNew ∧
      (Allocate st size).metaIndex = PoolSizes.length ∧
      (Allocate st size).state.metaMap (rawPtrOf (Allocate st size).ptr)
        = some ⟨true, PoolSizes.length⟩) := by
  constructor
  · intro hs
    obtain ⟨hpos, hlt, hle, hmin⟩ := findPoolIndex_spec size hs
    have hmi : (Allocate st size).metaIndex = (FindPoolIndex size).toNat := by
      simp [Allocate, if_pos hpos]
    have hsrc : (Allocate st size).source = .poolBucket (FindPoolIndex size).toNat := by
      simp [Allocate, if_pos hpos]
    rw [hmi, hsrc]
    exact ⟨rfl, hlt, hle, hmin⟩
  · intro hs
    have hneg : ¬ (0 : Int) ≤ FindPoolIndex size := by
      rw [findPoolIndex_oversize size hs]
      decide
    have hraw : rawPtrOf (userPtrOf st.nextFresh) = st.nextFresh := by
      simp [userPtrOf, rawPtrOf, AlignedMetaSize]
    refine ⟨?_, ?_, ?_⟩
    · simp [Allocate, if_neg hneg]
    · simp [Allocate, if_neg hneg]
    · simp [Allocate, if_neg hneg, hraw]

/-- Witness for the size-classing theorem: size 100 goes to bucket 2
(entry 128, the smallest entry of at least 100, in particular at most the
entry 128 itself); size 9000 is served by the system allocator with the
oversize sentinel in its header. -/
theorem Allocate_size_class_spec_witness :
    (Allocate emptyPoolW 100).source = .poolBucket (Allocate emptyPoolW 100).metaIndex ∧
    (Allocate emptyPoolW 100).metaIndex < PoolSizes.length ∧
    100 ≤ PoolSizes.getD (Allocate emptyPoolW 100).metaIndex 0 ∧
    PoolSizes.getD (Allocate emptyPoolW 100).metaIndex 0 ≤ 128 ∧
    (Allocate emptyPoolW 9000).source = .systemNew ∧
    (Allocate emptyPoolW 9000).metaIndex = PoolSizes.length ∧
    (Allocate emptyPoolW 9000).state.metaMap (rawPtrOf (Allocate emptyPoolW 9000).ptr)
      = some ⟨true, PoolSizes.length⟩ :=
  ⟨((Allocate_size_class_spec emptyPoolW 100).1 (by decide)).1,
   ((Allocate_size_class_spec emptyPoolW 100).1 (by decide)).2.1,
   ((Allocate_size_class_spec emptyPoolW 100).1 (by decide)).2.2.1,
   ((Allocate_size_class_spec emptyPoolW 100).1 (by decide)).2.2.2 128 (by decide)
     (by decide),
   ((Allocate_size_class_spec emptyPoolW 9000).2 (by decide)).1,
   ((Allocate_size_class_spec emptyPoolW 9000).2 (by decide)).2.1,
   ((Allocate_size_class_spec emptyPoolW 9000).2 (by decide)).2.2⟩

theorem CollectRemoteFree_ownerId (st : ThreadLocalPool) :
    (CollectRemoteFree st).1.ownerId = st.ownerId := rfl

theorem AllocateNewSlab_ownerId (st : ThreadLocalPool) (i : Nat) :
    (AllocateNewSlab st i).2.ownerId = st.ownerId := rfl

theorem AllocateFromPool_ownerId (st : ThreadLocalPool) (i : Nat) :
    (AllocateFromPool st i).2.ownerId = st.ownerId := by
  unfold AllocateFromPool
  cases h : st.freeLists i with
  | cons n rest => simp [h]
  | nil =>
    simp only [h]
    cases h2 : (CollectRemoteFree st).1.freeLists i with
    | cons n rest => simp [h2, CollectRemoteFree]
    | nil => simp [h2, AllocateNewSlab, CollectRemoteFree]

theorem AllocateFromPool_cons (st : ThreadLocalPool) (i : Nat) (n : Addr)
    (rest : List Addr) (h : st.freeLists i = n :: rest) :
    AllocateFromPool st i
      = (n, { st with freeLists := Function.update st.freeLists i rest }) := by
  unfold AllocateFromPool
  rw [h]

theorem Allocate64_ptr_of_head (st : ThreadLocalPool) (n : Addr) (rest : List Addr)
    (h : st.freeLists 1 = n :: rest) :
    (Allocate st 64).ptr = userPtrOf n := by
  have h4 := AllocateFromPool_cons st 1 n rest h
  simp [Allocate, (show FindPoolIndex 64 = 1 by decide), h4]

/-- Claim C8: on the owner thread the sequence p = Allocate(64);
Deallocate(p, 64); q = Allocate(64) returns q = p: the deallocation pushes
the block LIFO onto the local free list of bucket 1 and the next allocation
of the same bucket pops that same block. -/
theorem lifo_reuse_spec (st : ThreadLocalPool) :
    (Allocate (Deallocate (Allocate st 64).state st.ownerId
        (some (Allocate st 64).ptr) 64).1 64).ptr = (Allocate st 64).ptr ∧
    (Deallocate (Allocate st 64).state st.ownerId
        (some (Allocate st 64).ptr) 64).2 = .localPush := by
  have hidx : FindPoolIndex 64 = 1 := by decide
  rcases hA : AllocateFromPool st 1 with ⟨raw, stA⟩
  have hown : stA.ownerId = st.ownerId := by
    have := AllocateFromPool_ownerId st 1
    rw [hA] at this
    exact this
  have h1 : Allocate st 64
      = { ptr := userPtrOf raw,
          state := { stA with
            metaMap := Function.update stA.metaMap raw (some ⟨true, 1⟩) },
          source := .poolBucket 1,
          metaIndex := 1 } := by
    simp [Allocate, hidx, hA]
  have hraw : rawPtrOf (userPtrOf raw) = raw := by
    simp [userPtrOf, rawPtrOf, AlignedMetaSize]
  have h2 : Deallocate
      { stA with metaMap := Function.update stA.metaMap raw (some ⟨true, 1⟩) }
      st.ownerId (some (userPtrOf raw)) 64
      = ({ stA with
            metaMap := Function.update stA.metaMap raw (some ⟨true, 1⟩),
            freeLists := Function.update stA.freeLists 1 (raw :: stA.freeLists 1) },
         .localPush) := by
    simp only [Deallocate]
    rw [hraw, Function.update_same]
    simp [hown, PoolSizes]
  constructor
  · rw [h1]
    dsimp only
    rw [h2]
    apply Allocate64_ptr_of_head _ raw (stA.freeLists 1)
    dsimp only
    exact Function.update_same _ _ _
  · rw [h1]
    dsimp only
    rw [h2]

theorem collectLoop_deleted (l : List (Addr × Nat)) :
    ∀ (fls : Nat → List Addr) (deleted : List Addr),
      (∀ x ∈ l, x.2 < PoolSizes.length) →
      (collectLoop l fls deleted).2 = deleted := by
  induction l with
  | nil =>
    intro fls deleted _
    rfl
  | cons hd tl ih =>
    intro fls deleted h
    have hhd : hd.2 < PoolSizes.length := h hd (List.mem_cons_self _ _)
    obtain ⟨a, pIdx⟩ := hd
    simp only [collectLoop]
    rw [if_pos hhd]
    exact ih _ _ (fun x hx => h x (List.mem_cons_of_mem _ hx))

/-- Claim C9: oversize blocks never reach a remote free list.  Deallocate
returns a block whose header carries the oversize sentinel straight to the
system allocator no matter which thread calls it, leaving the pool state
untouched; every Deallocate preserves the invariant that each node on the
remote stack has a pool index below the ladder length; and on a remote
stack satisfying that invariant CollectRemoteFree's oversize branch
processes nothing. -/
theorem oversize_never_remote_spec
    (st : ThreadLocalPool) (tid : Nat) (p : Addr) (m : BlockMeta)
    (st2 : ThreadLocalPool) (tid2 : Nat) (ptr2 : Option Addr)
    (hmeta : st.metaMap (rawPtrOf p) = some m)
    (hown : m.hasOwner = true)
    (hov : PoolSizes.length ≤ m.poolIndex)
    (hinv : ∀ x ∈ st2.remoteFree, x.2 < PoolSizes.length) :
    Deallocate st tid (some p) 0 = (st, .systemDelete) ∧
    (∀ x ∈ (Deallocate st2 tid2 ptr2 0).1.remoteFree, x.2 < PoolSizes.length) ∧
    (CollectRemoteFree st2).2 = [] := by
  refine ⟨?_, ?_, ?_⟩
  · simp [Deallocate, hmeta, hown, hov]
  · intro x hx
    rcases ptr2 with _ | p2
    · exact hinv x hx
    · rcases hm2 : st2.metaMap (rawPtrOf p2) with _ | m2
      · simp only [Deallocate, hm2] at hx
        exact hinv x hx
      · simp only [Deallocate, hm2] at hx
        split_ifs at hx with hc1 hc2 hc3
        · exact hinv x hx
        · exact hinv x hx
        · exact hinv x hx
        · rcases List.mem_cons.mp hx with heq | htail
          · subst heq
            simpa using Nat.lt_of_not_le hc2
          · exact hinv x htail
  · unfold CollectRemoteFree
    simp only []
    exact collectLoop_deleted st2.remoteFree st2.freeLists [] hinv

/-- Witness for the oversize theorem: an oversize header at raw address 0
is deleted from a foreign thread without touching the remote stack; a
foreign-thread deallocation of a bucket-2 block pushes an in-range node;
collecting an in-range remote stack deletes nothing. -/
theorem oversize_never_remote_spec_witness :
    Deallocate oversizePoolW 5 (some (userPtrOf 0)) 0
      = (oversizePoolW, .systemDelete) ∧
    ((3, 2) : Addr × Nat).2 < PoolSizes.length ∧
    (CollectRemoteFree remotePoolW).2 = [] := by
  have h := oversize_never_remote_spec oversizePoolW 5 (userPtrOf 0) ⟨true, PoolSizes.length⟩
    remotePoolW 1 (some (userPtrOf 3)) (by decide) rfl (by decide) (by decide)
  exact ⟨h.1, h.2.1 (3, 2) (by decide), h.2.2⟩

end PoolAlloc

end TKit
